import Mathlib

/-!
Verification development for the rhorizons text-decoding core.

The Rust source operates on `&str` slices of the ASCII text blocks that the
Horizons service produces; we model a string as a `List Char` (for the ASCII
data this code consumes, Rust byte indices and character indices coincide).
Rust `f32` values produced by `str::parse::<f32>` are modelled exactly as
unnormalised decimal numbers `Dec` (an integer significand together with a
power-of-ten exponent); the claims under study concern the extraction logic,
not binary floating-point rounding.  A Rust `panic!` (from `unwrap`) is
modelled by the `PanicOr.panic` outcome.
-/

namespace Rhorizons

/-- Strings are modelled as lists of characters. -/
abbrev Str := List Char

/-- Convert a Lean string literal into the model type. -/
def s2l (s : String) : Str := s.toList

/-- Whitespace characters recognised by `str::trim` (ASCII fragment of
`char::is_whitespace`, which is all this code ever meets). -/
def isWS (c : Char) : Bool :=
  c = ' ' || c = '\t' || c = '\n' || c = '\r' || c = '\x0b' || c = '\x0c'

/-- Left part of `str::trim`. -/
def ltrim (l : Str) : Str := l.dropWhile isWS

/-- Right part of `str::trim`. -/
def rtrim (l : Str) : Str := (l.reverse.dropWhile isWS).reverse

/-- `str::trim`: strip whitespace from both ends. -/
def trim (l : Str) : Str := rtrim (ltrim l)

/-- `utilities::take_or_empty`: like `str::split_at` but returning what is
possible instead of panicking (src/utilities.rs lines 5-11). -/
def take_or_empty (value : Str) (n : Nat) : Str × Str :=
  if value.length > n then (value.take n, value.drop n) else (value, [])

/-- `utilities::take_expecting` (src/utilities.rs lines 17-31): strip the
expected prefix, or return the whole input inside the typed
`TakeExpectingError` (modelled by `Except.error` carrying the input). -/
def take_expecting (value expected : Str) : Except Str Str :=
  if expected.length > value.length then .error value
  else if value.take expected.length = expected then .ok (value.drop expected.length)
  else .error value

instance {ε α : Type} [DecidableEq ε] [DecidableEq α] : DecidableEq (Except ε α) := fun a b =>
  match a, b with
  | .error e, .error f =>
    if h : e = f then isTrue (by rw [h]) else isFalse (by simp [h])
  | .error _, .ok _ => isFalse (by simp)
  | .ok _, .error _ => isFalse (by simp)
  | .ok x, .ok y =>
    if h : x = y then isTrue (by rw [h]) else isFalse (by simp [h])

/-- Outcome of running code that may `panic!` (Rust `unwrap`). -/
inductive PanicOr (α : Type) where
  | panic : PanicOr α
  | ok : α → PanicOr α
deriving DecidableEq, Repr

/-- Exact decimal number: `num * 10 ^ exp`.  Models the numeric value a Rust
float parse extracts from a decimal literal, kept exact rather than rounded
to binary floating point. -/
structure Dec where
  num : Int
  exp : Int
deriving DecidableEq, Repr

def isDigit (c : Char) : Bool := '0' ≤ c && c ≤ '9'

def digitVal (c : Char) : Nat := c.toNat - '0'.toNat

def natOfDigits (l : Str) : Nat := l.foldl (fun a c => a * 10 + digitVal c) 0

def spanDigits (l : Str) : Str × Str := (l.takeWhile isDigit, l.dropWhile isDigit)

/-- Optional leading sign, as consumed by Rust numeric parsers. -/
def parseSign : Str → Int × Str
  | '+' :: rest => (1, rest)
  | '-' :: rest => (-1, rest)
  | l => (1, l)

/-- Model of `str::parse::<f32>` on the decimal grammar
`sign? (digits ('.' digits?)? | '.' digits) (('e'|'E') sign? digits)?`,
returning the exact decimal value.  (The `inf`/`NaN` spellings accepted by
Rust never occur in the fixed-width numeric fields this code slices.) -/
def parse_f32 (l : Str) : Option Dec :=
  let (sgn, l1) := parseSign l
  let (d1, l2) := spanDigits l1
  let (d2, l3) :=
    match l2 with
    | '.' :: r => spanDigits r
    | _ => ([], l2)
  if d1 = [] ∧ d2 = [] then none
  else
    match l3 with
    | [] => some ⟨sgn * natOfDigits (d1 ++ d2), -(d2.length : Int)⟩
    | e :: r =>
      if e = 'e' ∨ e = 'E' then
        let (es, r1) := parseSign r
        let (ed, r2) := spanDigits r1
        if ed = [] ∨ r2 ≠ [] then none
        else some ⟨sgn * natOfDigits (d1 ++ d2), es * natOfDigits ed - (d2.length : Int)⟩
      else none

/-- Model of `str::parse::<i32>`: optional sign, then only digits, at least
one, with the i32 range check. -/
def parse_i32 (l : Str) : Option Int :=
  match parseSign l with
  | (_, []) => none
  | (sgn, ds) =>
    if ds.all isDigit then
      let v : Int := sgn * natOfDigits ds
      if -2147483648 ≤ v ∧ v ≤ 2147483647 then some v else none
    else none

/-- `str::split` on a single separator character (keeps empty pieces). -/
def splitOnChar (sep : Char) : Str → List Str
  | [] => [[]]
  | c :: rest =>
    if c = sep then [] :: splitOnChar sep rest
    else
      match splitOnChar sep rest with
      | [] => [[c]]
      | s :: ss => (c :: s) :: ss

/-- `str::split_terminator`: like `split`, but a final empty piece produced
by a trailing separator (or by an empty input) is dropped. -/
def splitTerminator (sep : Char) (l : Str) : List Str :=
  let ps := splitOnChar sep l
  if ps.getLast? = some [] then ps.dropLast else ps

/-- Calendar timestamp, as produced by chrono's
`NaiveDateTime::parse_from_str(_, "%Y-%b-%d %H:%M:%S").unwrap().and_utc()`.
The `Utc` tag carries no data, so the naive fields are the whole value. -/
structure NaiveDT where
  year : Int
  month : Nat
  day : Nat
  hour : Nat
  minute : Nat
  second : Nat
deriving DecidableEq, Repr

def lowerA (c : Char) : Char :=
  if 'A' ≤ c ∧ c ≤ 'Z' then Char.ofNat (c.toNat + 32) else c

/-- `%b`: three-letter English month name, case-insensitive as in chrono. -/
def monthOfName (l : Str) : Option Nat :=
  match l.map lowerA with
  | ['j', 'a', 'n'] => some 1
  | ['f', 'e', 'b'] => some 2
  | ['m', 'a', 'r'] => some 3
  | ['a', 'p', 'r'] => some 4
  | ['m', 'a', 'y'] => some 5
  | ['j', 'u', 'n'] => some 6
  | ['j', 'u', 'l'] => some 7
  | ['a', 'u', 'g'] => some 8
  | ['s', 'e', 'p'] => some 9
  | ['o', 'c', 't'] => some 10
  | ['n', 'o', 'v'] => some 11
  | ['d', 'e', 'c'] => some 12
  | _ => none

def isLeap (y : Int) : Bool := (y % 4 = 0 && y % 100 ≠ 0) || y % 400 = 0

def daysInMonth (y : Int) (m : Nat) : Nat :=
  if m = 2 then (if isLeap y then 29 else 28)
  else if m = 4 ∨ m = 6 ∨ m = 9 ∨ m = 11 then 30
  else 31

/-- Consume at most `n` leading digits, as chrono's `scan::number(_, 1, n)`
does (the caller checks that at least one digit was found). -/
def spanDigitsMax (n : Nat) (l : Str) : Str × Str :=
  let ds := (l.takeWhile isDigit).take n
  (ds, l.drop ds.length)

/-- Model of chrono parsing with the fixed format `%Y-%b-%d %H:%M:%S`:
year, dash, month name, dash, day, space, `HH:MM:SS`, end of input, with
calendar validation.  Chrono caps the digit runs: an unsigned `%Y` reads
at most 4 digits and `%d`/`%H`/`%M`/`%S` at most 2, an excess digit then
failing against the following literal — so `2022-Jun-019 8:00:00` and
`20229-Jun-1 18:00:00` are rejected exactly as chrono rejects them.
Chrono additionally accepts forms this model does not (an explicitly
signed year, runs of whitespace where the format has one space, and the
leap second `60`); the model's acceptance only ever appears as a
hypothesis, so omitting those forms narrows, never widens, every theorem
stated over it. -/
def parseStamp (l : Str) : Option NaiveDT :=
  let (yd, r1) := spanDigitsMax 4 l
  if yd = [] then none
  else
    match r1 with
    | '-' :: r2 =>
      match monthOfName (r2.take 3), r2.drop 3 with
      | some m, '-' :: r4 =>
        let (dd, r5) := spanDigitsMax 2 r4
        if dd = [] then none
        else
          match r5 with
          | ' ' :: r6 =>
            let (hh, r7) := spanDigitsMax 2 r6
            if hh = [] then none
            else
              match r7 with
              | ':' :: r8 =>
                let (mi, r9) := spanDigitsMax 2 r8
                if mi = [] then none
                else
                  match r9 with
                  | ':' :: r10 =>
                    let (ss, r11) := spanDigitsMax 2 r10
                    if ss = [] ∨ r11 ≠ [] then none
                    else
                      let y : Int := natOfDigits yd
                      let d := natOfDigits dd
                      let h := natOfDigits hh
                      let mi2 := natOfDigits mi
                      let s := natOfDigits ss
                      if 1 ≤ d ∧ d ≤ daysInMonth y m ∧ h ≤ 23 ∧ mi2 ≤ 59 ∧ s ≤ 59 then
                        some ⟨y, m, d, h, mi2, s⟩
                      else none
                  | _ => none
              | _ => none
          | _ => none
      | _, _ => none
    | _ => none

/-- `ephemeris::parse_date_time` (src/ephemeris.rs lines 461-473):
`line.split_terminator('=')[1]` (panicking when index 1 is absent), trim,
strip the `"A.D. "` prefix (unwrap), take 20 characters, parse the calendar
format (unwrap). -/
def parse_date_time (line : Str) : PanicOr NaiveDT :=
  match (splitTerminator '=' line).get? 1 with
  | none => .panic
  | some piece =>
    let date_time_str := trim piece
    match take_expecting date_time_str (s2l "A.D. ") with
    | .error _ => .panic
    | .ok rest =>
      let (time, _) := take_or_empty rest 20
      match parseStamp time with
      | none => .panic
      | some dt => .ok dt

/-- `major_bodies::MajorBody` (src/major_bodies.rs). -/
structure MajorBody where
  id : Int
  name : Str
deriving DecidableEq, Repr

/-- `major_bodies::MajorBodyParseError`: `InvalidId` wraps the source
`ParseIntError`, which carries no information this model needs. -/
inductive MajorBodyParseError where
  | invalidId : MajorBodyParseError
deriving DecidableEq, Repr

/-- `MajorBody::try_from` (src/major_bodies.rs lines 35-47): slice the
first 9 columns as the id, the next 35 columns as the name, trim both,
parse the id as `i32`. -/
def majorBodyTryFrom (value : Str) : Except MajorBodyParseError MajorBody :=
  let (id, value1) := take_or_empty value 9
  let (name, _) := take_or_empty value1 35
  match parse_i32 (trim id) with
  | none => .error .invalidId
  | some i => .ok ⟨i, trim name⟩

/-- `properties::Properties` (src/properties.rs): the mass in kg. -/
structure Properties where
  mass : Dec
deriving DecidableEq, Repr

/-- `properties::ParseError`: no matching mass line was found. -/
inductive PropParseError where
  | parseError : PropParseError
deriving DecidableEq, Repr

/-- `10_f32.powf(e)` as the source applies it to the parsed 2-character
exponent.  For an exponent in integer form (`exp ≥ 0`, covering every
integer literal such as `24` or `-5`) the power of ten is exact and this
computes it.  A fractional exponent — the 2-character field can parse to
one, e.g. `.5` — makes the source compute an irrational float that no
exact decimal represents; the model returns the arbitrary value 1 there,
and every theorem about the computed mass carries the hypothesis
`0 ≤ e.exp`, confining it to the exactly-modelled integral case. -/
def decPow10 (e : Dec) : Dec :=
  if 0 ≤ e.exp then ⟨1, e.num * 10 ^ e.exp.toNat⟩ else ⟨1, 0⟩

/-- `f32` multiplication on exact decimals. -/
def decMul (a b : Dec) : Dec := ⟨a.num * b.num, a.exp + b.exp⟩

def massLit : Str := s2l "Mass x10^"

def kgLit : Str := s2l " (kg)= "

/-- One iteration of the scan loop in `Properties::parse`
(src/properties.rs lines 21-33): skip 45 columns, expect `"Mass x10^"`,
slice a 2-character exponent (parse, unwrap), expect `" (kg)= "`, slice a
7-character mantissa (parse, unwrap), and combine.  `.ok none` means the
loop moves to the next line. -/
def propScanLine (input : Str) : PanicOr (Option Properties) :=
  let (_, input1) := take_or_empty input 45
  match take_expecting input1 massLit with
  | .error _ => .ok none
  | .ok multiplier =>
    let (exponent, input2) := take_or_empty multiplier 2
    match parse_f32 exponent with
    | none => .panic
    | some e =>
      match take_expecting input2 kgLit with
      | .error _ => .ok none
      | .ok line =>
        let (mantissa, _) := take_or_empty line 7
        match parse_f32 mantissa with
        | none => .panic
        | some m => .ok (some ⟨decMul m (decPow10 e)⟩)

/-- `Properties::parse` (src/properties.rs lines 18-35): first full match
wins; a drained input yields the typed `ParseError`. -/
def propertiesParse : List Str → PanicOr (Except PropParseError Properties)
  | [] => .ok (.error .parseError)
  | l :: rest =>
    match propScanLine l with
    | .panic => .panic
    | .ok (some p) => .ok (.ok p)
    | .ok none => propertiesParse rest

/-- `ephemeris::EphemerisVectorItem`: timestamp, position (km), velocity
(km/s). -/
structure EphemerisVectorItem where
  time : NaiveDT
  position : Dec × Dec × Dec
  velocity : Dec × Dec × Dec
deriving DecidableEq, Repr

/-- `ephemeris::EphemerisOrbitalElementsItem`: the twelve Keplerian
scalars, field names as in the source. -/
structure EphemerisOrbitalElementsItem where
  time : NaiveDT
  eccentricity : Dec
  periapsis_distance : Dec
  inclination : Dec
  longitude_of_ascending_node : Dec
  argument_of_perifocus : Dec
  time_of_periapsis : Dec
  mean_motion : Dec
  mean_anomaly : Dec
  true_anomaly : Dec
  semi_major_axis : Dec
  apoapsis_distance : Dec
  siderral_orbit_period : Dec
deriving DecidableEq, Repr

/-- The shared shape of every data line both machines consume: three
labels, each verified by `take_expecting` (unwrap) and followed by a
22-column numeric field that is sliced by `take_or_empty`, trimmed and
parsed as `f32` (unwrap). -/
def parseThreeFields (la lb lc : Str) (line : Str) : PanicOr (Dec × Dec × Dec) :=
  match take_expecting line la with
  | .error _ => .panic
  | .ok l1 =>
    let (a, l2) := take_or_empty l1 22
    match take_expecting l2 lb with
    | .error _ => .panic
    | .ok l3 =>
      let (b, l4) := take_or_empty l3 22
      match take_expecting l4 lc with
      | .error _ => .panic
      | .ok l5 =>
        let (c, _) := take_or_empty l5 22
        match parse_f32 (trim a), parse_f32 (trim b), parse_f32 (trim c) with
        | some x, some y, some z => .ok (x, y, z)
        | _, _, _ => .panic

def soeLine : Str := s2l "$$SOE"

def eoeLine : Str := s2l "$$EOE"

/-- `ephemeris::EphemerisVectorParserState` (src/ephemeris.rs lines
118-132). -/
inductive VState where
  | waitingForSoe : VState
  | waitingForDate : VState
  | date : NaiveDT → VState
  | position : NaiveDT → Dec × Dec × Dec → VState
  | complete : NaiveDT → Dec × Dec × Dec → Dec × Dec × Dec → VState
  | ended : VState
deriving DecidableEq, Repr

/-- One arm of the `match self.state` in `EphemerisVectorParser::next`
(src/ephemeris.rs lines 205-287): consume one line, produce the next state
and at most one emitted item.  In the `End` state the source returns `None`
without emitting, which a drain observes as "no further items". -/
def vStep : VState → Str → PanicOr (VState × Option EphemerisVectorItem)
  | .waitingForSoe, line =>
    .ok (if line = soeLine then .waitingForDate else .waitingForSoe, none)
  | .waitingForDate, line =>
    if line = eoeLine then .ok (.ended, none)
    else
      match parse_date_time line with
      | .panic => .panic
      | .ok t => .ok (.date t, none)
  | .date t, line =>
    match parseThreeFields (s2l " X =") (s2l " Y =") (s2l " Z =") line with
    | .panic => .panic
    | .ok p => .ok (.position t p, none)
  | .position t p, line =>
    match parseThreeFields (s2l " VX=") (s2l " VY=") (s2l " VZ=") line with
    | .panic => .panic
    | .ok v => .ok (.complete t p v, none)
  | .complete t p v, _ => .ok (.waitingForDate, some ⟨t, p, v⟩)
  | .ended, _ => .ok (.ended, none)

/-- Drive the vector machine over a line sequence from a given state,
collecting the emitted items and the final state; `panic` aborts. -/
def vRun : VState → List Str → PanicOr (VState × List EphemerisVectorItem)
  | s, [] => .ok (s, [])
  | s, line :: rest =>
    match vStep s line with
    | .panic => .panic
    | .ok (s', none) => vRun s' rest
    | .ok (s', some it) =>
      match vRun s' rest with
      | .panic => .panic
      | .ok (s'', its) => .ok (s'', it :: its)

/-- Draining `EphemerisVectorParser::parse(lines)`: every emitted item in
order, or the panic outcome. -/
def vectorParse (lines : List Str) : PanicOr (List EphemerisVectorItem) :=
  match vRun .waitingForSoe lines with
  | .panic => .panic
  | .ok (_, its) => .ok its

/-- `ephemeris::EphemerisOrbitalElementsParserState` (src/ephemeris.rs
lines 134-172). -/
inductive OState where
  | waitingForSoe : OState
  | waitingForDate : OState
  | date : NaiveDT → OState
  | firstRow : NaiveDT → Dec × Dec × Dec → OState
  | secondRow : NaiveDT → Dec × Dec × Dec → Dec × Dec × Dec → OState
  | thirdRow : NaiveDT → Dec × Dec × Dec → Dec × Dec × Dec → Dec × Dec × Dec → OState
  | ended : OState
deriving DecidableEq, Repr

/-- One arm of the `match self.state` in
`EphemerisOrbitalElementsParser::next` (src/ephemeris.rs lines 293-458). -/
def oStep : OState → Str → PanicOr (OState × Option EphemerisOrbitalElementsItem)
  | .waitingForSoe, line =>
    .ok (if line = soeLine then .waitingForDate else .waitingForSoe, none)
  | .waitingForDate, line =>
    if line = eoeLine then .ok (.ended, none)
    else
      match parse_date_time line with
      | .panic => .panic
      | .ok t => .ok (.date t, none)
  | .date t, line =>
    match parseThreeFields (s2l " EC=") (s2l " QR=") (s2l " IN=") line with
    | .panic => .panic
    | .ok r1 => .ok (.firstRow t r1, none)
  | .firstRow t r1, line =>
    match parseThreeFields (s2l " OM=") (s2l " W =") (s2l " Tp=") line with
    | .panic => .panic
    | .ok r2 => .ok (.secondRow t r1 r2, none)
  | .secondRow t r1 r2, line =>
    match parseThreeFields (s2l " N =") (s2l " MA=") (s2l " TA=") line with
    | .panic => .panic
    | .ok r3 => .ok (.thirdRow t r1 r2 r3, none)
  | .thirdRow t r1 r2 r3, line =>
    match parseThreeFields (s2l " A =") (s2l " AD=") (s2l " PR=") line with
    | .panic => .panic
    | .ok r4 =>
      .ok (.waitingForDate,
        some ⟨t, r1.1, r1.2.1, r1.2.2, r2.1, r2.2.1, r2.2.2,
          r3.1, r3.2.1, r3.2.2, r4.1, r4.2.1, r4.2.2⟩)
  | .ended, _ => .ok (.ended, none)

/-- Drive the orbital-elements machine over a line sequence. -/
def oRun : OState → List Str → PanicOr (OState × List EphemerisOrbitalElementsItem)
  | s, [] => .ok (s, [])
  | s, line :: rest =>
    match oStep s line with
    | .panic => .panic
    | .ok (s', none) => oRun s' rest
    | .ok (s', some it) =>
      match oRun s' rest with
      | .panic => .panic
      | .ok (s'', its) => .ok (s'', it :: its)

/-- Draining `EphemerisOrbitalElementsParser::parse(lines)`. -/
def orbitalParse (lines : List Str) : PanicOr (List EphemerisOrbitalElementsItem) :=
  match oRun .waitingForSoe lines with
  | .panic => .panic
  | .ok (_, its) => .ok its

/-! Cycle descriptions used to state the record-machine properties: a
well-formed vector cycle is four input lines (timestamp, position,
velocity, auxiliary) whose first three decode successfully. -/

/-- A well-formed 4-line vector cycle together with its decoded values. -/
structure GoodCycle where
  dLine : Str
  pLine : Str
  vLine : Str
  aLine : Str
  t : NaiveDT
  p : Dec × Dec × Dec
  v : Dec × Dec × Dec
  hne : dLine ≠ eoeLine
  hd : parse_date_time dLine = .ok t
  hp : parseThreeFields (s2l " X =") (s2l " Y =") (s2l " Z =") pLine = .ok p
  hv : parseThreeFields (s2l " VX=") (s2l " VY=") (s2l " VZ=") vLine = .ok v

def GoodCycle.lines (c : GoodCycle) : List Str := [c.dLine, c.pLine, c.vLine, c.aLine]

def GoodCycle.item (c : GoodCycle) : EphemerisVectorItem := ⟨c.t, c.p, c.v⟩

def flatCycles (cs : List GoodCycle) : List Str := (cs.map GoodCycle.lines).flatten

def cycleItems (cs : List GoodCycle) : List EphemerisVectorItem := cs.map GoodCycle.item

/-- A well-formed 5-line orbital-elements cycle with its decoded values. -/
structure GoodOCycle where
  dLine : Str
  r1Line : Str
  r2Line : Str
  r3Line : Str
  r4Line : Str
  t : NaiveDT
  r1 : Dec × Dec × Dec
  r2 : Dec × Dec × Dec
  r3 : Dec × Dec × Dec
  r4 : Dec × Dec × Dec
  hne : dLine ≠ eoeLine
  hd : parse_date_time dLine = .ok t
  h1 : parseThreeFields (s2l " EC=") (s2l " QR=") (s2l " IN=") r1Line = .ok r1
  h2 : parseThreeFields (s2l " OM=") (s2l " W =") (s2l " Tp=") r2Line = .ok r2
  h3 : parseThreeFields (s2l " N =") (s2l " MA=") (s2l " TA=") r3Line = .ok r3
  h4 : parseThreeFields (s2l " A =") (s2l " AD=") (s2l " PR=") r4Line = .ok r4

def GoodOCycle.lines (c : GoodOCycle) : List Str :=
  [c.dLine, c.r1Line, c.r2Line, c.r3Line, c.r4Line]

def GoodOCycle.item (c : GoodOCycle) : EphemerisOrbitalElementsItem :=
  ⟨c.t, c.r1.1, c.r1.2.1, c.r1.2.2, c.r2.1, c.r2.2.1, c.r2.2.2,
    c.r3.1, c.r3.2.1, c.r3.2.2, c.r4.1, c.r4.2.1, c.r4.2.2⟩

def flatOCycles (cs : List GoodOCycle) : List Str := (cs.map GoodOCycle.lines).flatten

def oCycleItems (cs : List GoodOCycle) : List EphemerisOrbitalElementsItem :=
  cs.map GoodOCycle.item

/-- Prefix some already-emitted items onto a run outcome. -/
def prependV (its : List EphemerisVectorItem) :
    PanicOr (VState × List EphemerisVectorItem) →
    PanicOr (VState × List EphemerisVectorItem)
  | .panic => .panic
  | .ok (s, l) => .ok (s, its ++ l)

/-- Prefix some already-emitted items onto an orbital run outcome. -/
def prependO (its : List EphemerisOrbitalElementsItem) :
    PanicOr (OState × List EphemerisOrbitalElementsItem) →
    PanicOr (OState × List EphemerisOrbitalElementsItem)
  | .panic => .panic
  | .ok (s, l) => .ok (s, its ++ l)

theorem prependV_nil (r : PanicOr (VState × List EphemerisVectorItem)) :
    prependV [] r = r := by
  cases r with
  | panic => rfl
  | ok p => cases p; simp [prependV]

theorem prependV_append (a b : List EphemerisVectorItem)
    (r : PanicOr (VState × List EphemerisVectorItem)) :
    prependV (a ++ b) r = prependV a (prependV b r) := by
  cases r with
  | panic => rfl
  | ok p => cases p; simp [prependV]

theorem prependO_nil (r : PanicOr (OState × List EphemerisOrbitalElementsItem)) :
    prependO [] r = r := by
  cases r with
  | panic => rfl
  | ok p => cases p; simp [prependO]

theorem prependO_append (a b : List EphemerisOrbitalElementsItem)
    (r : PanicOr (OState × List EphemerisOrbitalElementsItem)) :
    prependO (a ++ b) r = prependO a (prependO b r) := by
  cases r with
  | panic => rfl
  | ok p => cases p; simp [prependO]

/-- Lines before the `$$SOE` sentinel are discarded. -/
theorem vRun_soe (pre : List Str) (h : ∀ l ∈ pre, l ≠ soeLine) (rest : List Str) :
    vRun .waitingForSoe (pre ++ soeLine :: rest) = vRun .waitingForDate rest := by
  induction pre with
  | nil => simp [vRun, vStep]
  | cons l pre ih =>
    have hl : l ≠ soeLine := h l (List.mem_cons_self l pre)
    simp only [List.cons_append, vRun, vStep, hl, if_false, if_neg hl]
    exact ih fun x hx => h x (List.mem_cons_of_mem l hx)

/-- Once the machine has seen `$$EOE` it emits nothing further. -/
theorem vRun_ended (ls : List Str) : vRun .ended ls = .ok (.ended, []) := by
  induction ls with
  | nil => rfl
  | cons l ls ih => simpa [vRun, vStep] using ih

/-- Consuming one well-formed cycle emits exactly its item. -/
theorem vRun_cycle (c : GoodCycle) (rest : List Str) :
    vRun .waitingForDate (c.lines ++ rest)
      = prependV [c.item] (vRun .waitingForDate rest) := by
  obtain ⟨d, p, v, a, t, pv, vv, hne, hd, hp, hv⟩ := c
  simp only [GoodCycle.lines, GoodCycle.item, List.cons_append, List.nil_append]
  simp only [vRun, vStep, if_neg hne, hd, hp, hv]
  cases hr : vRun .waitingForDate rest with
  | panic => simp [prependV]
  | ok sp => cases sp; simp [prependV]

/-- Consuming a block of well-formed cycles emits exactly their items. -/
theorem vRun_flat (cs : List GoodCycle) (rest : List Str) :
    vRun .waitingForDate (flatCycles cs ++ rest)
      = prependV (cycleItems cs) (vRun .waitingForDate rest) := by
  induction cs with
  | nil => simp [flatCycles, cycleItems, prependV_nil]
  | cons c cs ih =>
    have : flatCycles (c :: cs) = c.lines ++ flatCycles cs := by
      simp [flatCycles]
    rw [this, List.append_assoc, vRun_cycle, ih]
    have : cycleItems (c :: cs) = [c.item] ++ cycleItems cs := by
      simp [cycleItems]
    rw [this, prependV_append]

theorem oRun_soe (pre : List Str) (h : ∀ l ∈ pre, l ≠ soeLine) (rest : List Str) :
    oRun .waitingForSoe (pre ++ soeLine :: rest) = oRun .waitingForDate rest := by
  induction pre with
  | nil => simp [oRun, oStep]
  | cons l pre ih =>
    have hl : l ≠ soeLine := h l (List.mem_cons_self l pre)
    simp only [List.cons_append, oRun, oStep, if_neg hl]
    exact ih fun x hx => h x (List.mem_cons_of_mem l hx)

theorem oRun_ended (ls : List Str) : oRun .ended ls = .ok (.ended, []) := by
  induction ls with
  | nil => rfl
  | cons l ls ih => simpa [oRun, oStep] using ih

theorem oRun_cycle (c : GoodOCycle) (rest : List Str) :
    oRun .waitingForDate (c.lines ++ rest)
      = prependO [c.item] (oRun .waitingForDate rest) := by
  obtain ⟨d, l1, l2, l3, l4, t, r1, r2, r3, r4, hne, hd, h1, h2, h3, h4⟩ := c
  simp only [GoodOCycle.lines, GoodOCycle.item, List.cons_append, List.nil_append]
  simp only [oRun, oStep, if_neg hne, hd, h1, h2, h3, h4]
  cases hr : oRun .waitingForDate rest with
  | panic => simp [prependO]
  | ok sp => cases sp; simp [prependO]

theorem oRun_flat (cs : List GoodOCycle) (rest : List Str) :
    oRun .waitingForDate (flatOCycles cs ++ rest)
      = prependO (oCycleItems cs) (oRun .waitingForDate rest) := by
  induction cs with
  | nil => simp [flatOCycles, oCycleItems, prependO_nil]
  | cons c cs ih =>
    have h1 : flatOCycles (c :: cs) = c.lines ++ flatOCycles cs := by
      simp [flatOCycles]
    have h2 : oCycleItems (c :: cs) = [c.item] ++ oCycleItems cs := by
      simp [oCycleItems]
    rw [h1, List.append_assoc, oRun_cycle, ih, h2, prependO_append]

/-- The possible well-formed truncated trailing cycles of the vector
machine: the input line sequence just stops after zero, one, two or three
lines of a cycle, every line actually present being well-formed. -/
inductive VTailOk : List Str → Prop where
  | nil : VTailOk []
  | date (d : Str) (t : NaiveDT) (hne : d ≠ eoeLine) (hd : parse_date_time d = .ok t) :
      VTailOk [d]
  | pos (d p : Str) (t : NaiveDT) (pv : Dec × Dec × Dec) (hne : d ≠ eoeLine)
      (hd : parse_date_time d = .ok t)
      (hp : parseThreeFields (s2l " X =") (s2l " Y =") (s2l " Z =") p = .ok pv) :
      VTailOk [d, p]
  | vel (d p v : Str) (t : NaiveDT) (pv vv : Dec × Dec × Dec) (hne : d ≠ eoeLine)
      (hd : parse_date_time d = .ok t)
      (hp : parseThreeFields (s2l " X =") (s2l " Y =") (s2l " Z =") p = .ok pv)
      (hv : parseThreeFields (s2l " VX=") (s2l " VY=") (s2l " VZ=") v = .ok vv) :
      VTailOk [d, p, v]

/-- The analogous truncations of the orbital-elements machine. -/
inductive OTailOk : List Str → Prop where
  | nil : OTailOk []
  | date (d : Str) (t : NaiveDT) (hne : d ≠ eoeLine) (hd : parse_date_time d = .ok t) :
      OTailOk [d]
  | row1 (d l1 : Str) (t : NaiveDT) (r1 : Dec × Dec × Dec) (hne : d ≠ eoeLine)
      (hd : parse_date_time d = .ok t)
      (h1 : parseThreeFields (s2l " EC=") (s2l " QR=") (s2l " IN=") l1 = .ok r1) :
      OTailOk [d, l1]
  | row2 (d l1 l2 : Str) (t : NaiveDT) (r1 r2 : Dec × Dec × Dec) (hne : d ≠ eoeLine)
      (hd : parse_date_time d = .ok t)
      (h1 : parseThreeFields (s2l " EC=") (s2l " QR=") (s2l " IN=") l1 = .ok r1)
      (h2 : parseThreeFields (s2l " OM=") (s2l " W =") (s2l " Tp=") l2 = .ok r2) :
      OTailOk [d, l1, l2]
  | row3 (d l1 l2 l3 : Str) (t : NaiveDT) (r1 r2 r3 : Dec × Dec × Dec) (hne : d ≠ eoeLine)
      (hd : parse_date_time d = .ok t)
      (h1 : parseThreeFields (s2l " EC=") (s2l " QR=") (s2l " IN=") l1 = .ok r1)
      (h2 : parseThreeFields (s2l " OM=") (s2l " W =") (s2l " Tp=") l2 = .ok r2)
      (h3 : parseThreeFields (s2l " N =") (s2l " MA=") (s2l " TA=") l3 = .ok r3) :
      OTailOk [d, l1, l2, l3]

/-- A truncated trailing cycle emits nothing and does not panic. -/
theorem vRun_tail {tr : List Str} (h : VTailOk tr) :
    ∃ s, vRun .waitingForDate tr = .ok (s, []) := by
  cases h with
  | nil => exact ⟨.waitingForDate, rfl⟩
  | date d t hne hd =>
    exact ⟨.date t, by simp [vRun, vStep, if_neg hne, hd]⟩
  | pos d p t pv hne hd hp =>
    exact ⟨.position t pv, by simp [vRun, vStep, if_neg hne, hd, hp]⟩
  | vel d p v t pv vv hne hd hp hv =>
    exact ⟨.complete t pv vv, by simp [vRun, vStep, if_neg hne, hd, hp, hv]⟩

theorem oRun_tail {tr : List Str} (h : OTailOk tr) :
    ∃ s, oRun .waitingForDate tr = .ok (s, []) := by
  cases h with
  | nil => exact ⟨.waitingForDate, rfl⟩
  | date d t hne hd =>
    exact ⟨.date t, by simp [oRun, oStep, if_neg hne, hd]⟩
  | row1 d l1 t r1 hne hd h1 =>
    exact ⟨.firstRow t r1, by simp [oRun, oStep, if_neg hne, hd, h1]⟩
  | row2 d l1 l2 t r1 r2 hne hd h1 h2 =>
    exact ⟨.secondRow t r1 r2, by simp [oRun, oStep, if_neg hne, hd, h1, h2]⟩
  | row3 d l1 l2 l3 t r1 r2 r3 hne hd h1 h2 h3 =>
    exact ⟨.thirdRow t r1 r2 r3, by simp [oRun, oStep, if_neg hne, hd, h1, h2, h3]⟩

/-- Meeting `$$EOE` while awaiting a timestamp ends the sequence cleanly,
whatever lines follow. -/
theorem vRun_eoe (rest : List Str) :
    vRun .waitingForDate (eoeLine :: rest) = .ok (.ended, []) := by
  simp [vRun, vStep, vRun_ended]

theorem oRun_eoe (rest : List Str) :
    oRun .waitingForDate (eoeLine :: rest) = .ok (.ended, []) := by
  simp [oRun, oStep, oRun_ended]

/-- Running over a concatenation: run the first part, then continue from
the reached state. -/
theorem vRun_append (s : VState) (l1 l2 : List Str) :
    vRun s (l1 ++ l2) =
      match vRun s l1 with
      | .panic => .panic
      | .ok (s1, its) => prependV its (vRun s1 l2) := by
  induction l1 generalizing s with
  | nil => simp [vRun, prependV_nil]
  | cons l l1 ih =>
    simp only [List.cons_append, vRun]
    cases hs : vStep s l with
    | panic => rfl
    | ok p =>
      obtain ⟨s', it⟩ := p
      cases it with
      | none => simpa using ih s'
      | some i =>
        simp only
        rw [List.append_eq, ih s']
        cases h1 : vRun s' l1 with
        | panic => rfl
        | ok p1 =>
          obtain ⟨s1, its1⟩ := p1
          dsimp only
          cases h2 : vRun s1 l2 with
          | panic => simp [prependV, h2]
          | ok p2 => obtain ⟨sf, lf⟩ := p2; simp [prependV, h2]

/-! Structural lemmas about the Field Slicer and the line-splitting
helpers. -/

/-- Stripping a literal prefix from a string that carries it. -/
theorem take_expecting_append (e r : Str) : take_expecting (e ++ r) e = .ok r := by
  unfold take_expecting
  have h1 : ¬ e.length > (e ++ r).length := by
    simp [List.length_append]
  rw [if_neg h1, List.take_left, if_pos rfl, List.drop_left]

/-- Slicing a fixed-width field off the front of a string that is at least
that wide. -/
theorem take_or_empty_append {a : Str} {n : Nat} (h : a.length = n) (b : Str) :
    take_or_empty (a ++ b) n = (a, b) := by
  unfold take_or_empty
  by_cases hb : b = []
  · subst hb
    have : ¬ (a ++ ([] : Str)).length > n := by simp [h]
    rw [if_neg this]
    simp
  · have hlen : (a ++ b).length > n := by
      have : 0 < b.length := List.length_pos.mpr hb
      simp [List.length_append, h]
      omega
    rw [if_pos hlen, List.take_left' h, List.drop_left' h]

/-- The first piece of a split, i.e. the characters before the first
separator. -/
def firstPart (sep : Char) : Str → Str
  | [] => []
  | c :: r => if c = sep then [] else c :: firstPart sep r

theorem splitOnChar_head (sep : Char) (l : Str) :
    ∃ ss, splitOnChar sep l = firstPart sep l :: ss := by
  induction l with
  | nil => exact ⟨[], rfl⟩
  | cons c r ih =>
    obtain ⟨ss, hss⟩ := ih
    by_cases hc : c = sep
    · exact ⟨splitOnChar sep r, by simp [splitOnChar, firstPart, hc]⟩
    · exact ⟨ss, by simp [splitOnChar, firstPart, hc, hss]⟩

theorem firstPart_append {sep : Char} {a : Str} (h : sep ∉ a) (b : Str) :
    firstPart sep (a ++ b) = a ++ firstPart sep b := by
  induction a with
  | nil => simp
  | cons c r ih =>
    have hc : ¬ c = sep := by
      intro hcc
      exact h (hcc ▸ List.mem_cons_self c r)
    simp only [List.cons_append, firstPart, if_neg hc]
    rw [List.append_eq, ih fun hm => h (List.mem_cons_of_mem c hm)]

theorem splitOnChar_append {sep : Char} {a : Str} (h : sep ∉ a) (b : Str) :
    splitOnChar sep (a ++ sep :: b) = a :: splitOnChar sep b := by
  induction a with
  | nil => simp [splitOnChar]
  | cons c r ih =>
    have hc : ¬ c = sep := by
      intro hcc
      exact h (hcc ▸ List.mem_cons_self c r)
    have ih2 := ih fun hm => h (List.mem_cons_of_mem c hm)
    simp only [List.cons_append, splitOnChar, if_neg hc]
    rw [List.append_eq, ih2]

/-- Element 1 of the collected `split_terminator` pieces, in the shape
`parse_date_time` reads it: present whenever the second piece is
nonempty. -/
theorem splitTerminator_get1 {sep : Char} {a : Str} (h : sep ∉ a) {b : Str}
    (l : Str) (hl : l = a ++ sep :: b) (hb : firstPart sep b ≠ []) :
    (splitTerminator sep l).get? 1 = some (firstPart sep b) := by
  subst hl
  unfold splitTerminator
  dsimp only
  rw [splitOnChar_append h]
  obtain ⟨ss, hss⟩ := splitOnChar_head sep b
  rw [hss]
  cases ss with
  | nil =>
    have : (a :: [firstPart sep b]).getLast? = some (firstPart sep b) := rfl
    rw [this]
    have : ¬ some (firstPart sep b) = some ([] : Str) := by
      simpa using hb
    rw [if_neg this]
    rfl
  | cons s ss =>
    by_cases hlast : (a :: firstPart sep b :: s :: ss).getLast? = some ([] : Str)
    · rw [if_pos hlast]
      rw [List.dropLast_cons₂, List.dropLast_cons₂]
      rfl
    · rw [if_neg hlast]
      rfl

/-- `rtrim` does not reach past a non-whitespace character. -/
theorem rtrim_append {x : Str} {c : Char} (hc : isWS c = false) (v : Str) :
    rtrim ((x ++ [c]) ++ v) = (x ++ [c]) ++ rtrim v := by
  unfold rtrim
  rw [List.reverse_append, List.reverse_append]
  simp only [List.reverse_cons, List.reverse_nil, List.nil_append, List.singleton_append]
  rw [List.dropWhile_append]
  by_cases hv : (List.dropWhile isWS v.reverse).isEmpty
  · rw [if_pos hv]
    have hrv : List.dropWhile isWS v.reverse = [] := by
      simpa [List.isEmpty_iff] using hv
    rw [hrv]
    simp [List.dropWhile, hc]
  · rw [if_neg hv]
    simp

theorem ltrim_adp (y : Str) : ltrim (s2l " A.D. " ++ y) = s2l "A.D. " ++ y := by
  show ltrim (' ' :: 'A' :: '.' :: 'D' :: '.' :: ' ' :: y) = 'A' :: '.' :: 'D' :: '.' :: ' ' :: y
  unfold ltrim
  rw [List.dropWhile_cons, if_pos (by decide), List.dropWhile_cons,
    if_neg (by decide)]

theorem trim_replicate_star (m : Nat) : trim (List.replicate m '*') = List.replicate m '*' := by
  unfold trim ltrim rtrim
  rw [List.dropWhile_replicate, if_neg (by decide), List.reverse_replicate,
    List.dropWhile_replicate, if_neg (by decide), List.reverse_replicate]

theorem parse_i32_star (m : Nat) : parse_i32 (List.replicate m '*') = none := by
  cases m with
  | zero => rfl
  | succ k =>
    show parse_i32 ('*' :: List.replicate k '*') = none
    unfold parse_i32
    have hsign : parseSign ('*' :: List.replicate k '*') = (1, '*' :: List.replicate k '*') := rfl
    rw [hsign]
    have : ('*' :: List.replicate k '*').all isDigit = false := by
      simp [List.all_cons, isDigit]
    simp [this]

/-! Concrete input material used by witnesses and counterexamples.  The
timestamp line is one of the lines exercised by the repository's own
tests; the data lines carry simple 22-column numeric fields. -/

def dateLine1 : Str := s2l "2459750.250000000 = A.D. 2022-Jun-19 18:00:00.0000 TDB"

def dt1 : NaiveDT := ⟨2022, 6, 19, 18, 0, 0⟩

def pad22 (s : String) : Str := List.replicate (22 - s.length) ' ' ++ s2l s

def posLine1 : Str :=
  s2l " X =" ++ pad22 "1.0" ++ s2l " Y =" ++ pad22 "2.0" ++ s2l " Z =" ++ pad22 "3.0"

def velLine1 : Str :=
  s2l " VX=" ++ pad22 "4.0" ++ s2l " VY=" ++ pad22 "5.0" ++ s2l " VZ=" ++ pad22 "6.0"

def auxLine1 : Str := s2l " LT= 1.0 RG= 2.0 RR= 3.0"

def pos1 : Dec × Dec × Dec := (⟨10, -1⟩, ⟨20, -1⟩, ⟨30, -1⟩)

def vel1 : Dec × Dec × Dec := (⟨40, -1⟩, ⟨50, -1⟩, ⟨60, -1⟩)

def item1 : EphemerisVectorItem := ⟨dt1, pos1, vel1⟩

def row1Line1 : Str :=
  s2l " EC=" ++ pad22 "1.0" ++ s2l " QR=" ++ pad22 "2.0" ++ s2l " IN=" ++ pad22 "3.0"

def row2Line1 : Str :=
  s2l " OM=" ++ pad22 "4.0" ++ s2l " W =" ++ pad22 "5.0" ++ s2l " Tp=" ++ pad22 "6.0"

def row3Line1 : Str :=
  s2l " N =" ++ pad22 "7.0" ++ s2l " MA=" ++ pad22 "8.0" ++ s2l " TA=" ++ pad22 "9.0"

/-- A well-formed mass line: 45 columns of margin, then
`Mass x10^24 (kg)= 5.97219+-0.0006`. -/
def earthMassLine : Str :=
  List.replicate 45 ' ' ++ massLit ++ s2l "24" ++ kgLit ++ s2l "5.97219" ++ s2l "+-0.0006"

/-- A line whose 2-character exponent field is not numeric. -/
def poisonMassLine : Str :=
  List.replicate 45 ' ' ++ massLit ++ s2l "XY" ++ kgLit ++ s2l "1.00000"

/-- A line matching `Mass x10^` with a numeric exponent but without the
`" (kg)= "` literal after it. -/
def badKgLine : Str :=
  List.replicate 45 ' ' ++ massLit ++ s2l "24" ++ s2l " [kg]= 1.00000"

/-- C4: for every string `s` and every `n`, `take_or_empty s n` succeeds:
its first component has length `min n (len s)`, its second component is
empty when `len s ≤ n`, and concatenating the two components reproduces
`s` exactly. -/
theorem C4_take_or_empty_split (s : Str) (n : Nat) :
    (take_or_empty s n).1.length = min n s.length
  ∧ (take_or_empty s n).1 ++ (take_or_empty s n).2 = s
  ∧ (s.length ≤ n → (take_or_empty s n).2 = []) := by
  unfold take_or_empty
  by_cases h : s.length > n
  · rw [if_pos h]
    refine ⟨by simp [List.length_take], by simp, fun hle => by omega⟩
  · rw [if_neg h]
    simp only [Nat.not_lt] at h
    exact ⟨by simp [Nat.min_eq_right h], by simp, fun _ => rfl⟩

theorem C4_take_or_empty_split_witness :
    (s2l "ab").length ≤ 4
  ∧ (take_or_empty (s2l "ab") 4).2 = []
  ∧ (take_or_empty (s2l "ab") 4).1.length = min 4 (s2l "ab").length :=
  ⟨by decide, (C4_take_or_empty_split (s2l "ab") 4).2.2 (by decide),
    (C4_take_or_empty_split (s2l "ab") 4).1⟩

/-- C5: for every string and every expected label — longer, equal or
shorter than the string — `take_expecting` returns the exact suffix after
the label when the label is a prefix, and otherwise the typed
unexpected-prefix failure carrying the whole input unmodified. -/
theorem C5_take_expecting_spec (value expected : Str) :
    take_expecting value expected =
      if expected.isPrefixOf value then .ok (value.drop expected.length)
      else .error value := by
  by_cases hp : expected.isPrefixOf value = true
  · have hpre : expected <+: value := List.isPrefixOf_iff_prefix.mp hp
    have hle : expected.length ≤ value.length := hpre.length_le
    have htake : value.take expected.length = expected :=
      (List.prefix_iff_eq_take.mp hpre).symm
    rw [if_pos hp]
    unfold take_expecting
    rw [if_neg (by omega), if_pos htake]
  · rw [if_neg hp]
    unfold take_expecting
    by_cases hlen : expected.length > value.length
    · rw [if_pos hlen]
    · rw [if_neg hlen]
      have hne : ¬ value.take expected.length = expected := by
        intro he
        exact hp (List.isPrefixOf_iff_prefix.mpr (he ▸ List.take_prefix _ _))
      rw [if_neg hne]

/-- C6: the catalog decoder maps the Solar System Barycenter line to
`Body{id 0}` and the Saturn line to `Body{id 699}` (id sliced from columns
0-9, name from columns 9-44, both trimmed), and fails with the typed
numeric-parse failure on every all-`*` line and on the empty line. -/
theorem C6_catalog_decoder :
    (majorBodyTryFrom (s2l "        0  Solar System Barycenter                         SSB")
      = .ok ⟨0, s2l "Solar System Barycenter"⟩)
  ∧ (majorBodyTryFrom (s2l "      699  Saturn") = .ok ⟨699, s2l "Saturn"⟩)
  ∧ (∀ k : Nat, majorBodyTryFrom (List.replicate k '*') = .error .invalidId)
  ∧ majorBodyTryFrom [] = .error .invalidId := by
  refine ⟨by decide, by decide, ?stars, by decide⟩
  intro k
  unfold majorBodyTryFrom
  have hfst : (take_or_empty (List.replicate k '*') 9).1 = List.replicate (min 9 k) '*' := by
    unfold take_or_empty
    by_cases h : (List.replicate k '*').length > 9
    · rw [if_pos h]
      simp [List.take_replicate]
    · rw [if_neg h]
      simp only [List.length_replicate, Nat.not_lt] at h
      simp [Nat.min_eq_right h]
  obtain ⟨a, b, hab⟩ : ∃ a b, take_or_empty (List.replicate k '*') 9 = (a, b) :=
    ⟨_, _, rfl⟩
  rw [hab] at hfst
  simp only at hfst
  rw [hab]
  dsimp only
  obtain ⟨c, d, hcd⟩ : ∃ c d, take_or_empty b 35 = (c, d) := ⟨_, _, rfl⟩
  rw [hcd]
  dsimp only
  rw [hfst, trim_replicate_star, parse_i32_star]

/-- A concrete well-formed vector cycle. -/
def gc1 : GoodCycle :=
  ⟨dateLine1, posLine1, velLine1, auxLine1, dt1, pos1, vel1,
    by decide, by decide, by decide, by decide⟩

/-- C1 counterexample: in the input `$$SOE`, timestamp, position,
velocity, `$$EOE` the trailing cycle is cut short by the `$$EOE` sentinel
(its auxiliary line is missing), yet draining the vector parser emits one
item — the sentinel itself is consumed as the auxiliary line — where the
claim demands that no item be emitted. -/
theorem C1_counterexample :
    vectorParse [soeLine, dateLine1, posLine1, velLine1, eoeLine] = .ok [item1]
  ∧ vectorParse [soeLine, dateLine1, posLine1, velLine1, eoeLine] ≠ .ok [] := by
  refine ⟨by decide, by decide⟩

/-- C1 (amended): draining the vector parser emits exactly one
`VectorItem` per complete cycle (timestamp, well-formed position line,
well-formed velocity line, and one auxiliary line, whose content is
arbitrary); a trailing cycle cut short by end of input emits no item; a
`$$EOE` met where a timestamp is expected ends the sequence with no
further item; but when `$$EOE` stands exactly in the auxiliary-line slot
it is consumed as the auxiliary line and the cycle's item IS emitted. -/
theorem C1_cycle_emission (pre : List Str) (hpre : ∀ l ∈ pre, l ≠ soeLine)
    (cs : List GoodCycle) :
    (∀ tr, VTailOk tr →
      vectorParse (pre ++ soeLine :: (flatCycles cs ++ tr)) = .ok (cycleItems cs))
  ∧ (∀ rest, vectorParse (pre ++ soeLine :: (flatCycles cs ++ (eoeLine :: rest)))
      = .ok (cycleItems cs))
  ∧ (∀ d p v (t : NaiveDT) (pv vv : Dec × Dec × Dec), d ≠ eoeLine →
      parse_date_time d = .ok t →
      parseThreeFields (s2l " X =") (s2l " Y =") (s2l " Z =") p = .ok pv →
      parseThreeFields (s2l " VX=") (s2l " VY=") (s2l " VZ=") v = .ok vv →
      vectorParse (pre ++ soeLine :: (flatCycles cs ++ [d, p, v, eoeLine]))
        = .ok (cycleItems cs ++ [⟨t, pv, vv⟩])) := by
  refine ⟨?trunc, ?eoe, ?eoeAux⟩
  · intro tr htr
    obtain ⟨s, hs⟩ := vRun_tail htr
    unfold vectorParse
    rw [vRun_soe pre hpre, vRun_flat, hs]
    simp [prependV]
  · intro rest
    unfold vectorParse
    rw [vRun_soe pre hpre, vRun_flat, vRun_eoe]
    simp [prependV]
  · intro d p v t pv vv hne hd hp hv
    unfold vectorParse
    rw [vRun_soe pre hpre]
    have hc : [d, p, v, eoeLine]
        = GoodCycle.lines ⟨d, p, v, eoeLine, t, pv, vv, hne, hd, hp, hv⟩ ++ [] := by
      simp [GoodCycle.lines]
    rw [hc, vRun_flat, vRun_cycle]
    simp [vRun, prependV, GoodCycle.item]

theorem C1_cycle_emission_witness :
    vectorParse ([] ++ soeLine :: (flatCycles [gc1] ++ [])) = .ok (cycleItems [gc1]) :=
  (C1_cycle_emission [] (by simp) [gc1]).1 [] VTailOk.nil

/-- C2: the claim says a mismatched column label or a non-numeric
22-character payload inside a cycle surfaces a typed failure to the
caller and never aborts the whole process; the code instead calls
`unwrap`, i.e. panics, on all three of these inputs (a wrong label in a
vector position line, a non-numeric payload there, and a malformed
orbital-elements first row). -/
theorem C2_unwrap_panics :
    vectorParse [soeLine, dateLine1, s2l "QX = 1.0"] = .panic
  ∧ vectorParse [soeLine, dateLine1,
      s2l " X =" ++ pad22 "abc" ++ s2l " Y =" ++ pad22 "2.0" ++ s2l " Z =" ++ pad22 "3.0"]
      = .panic
  ∧ orbitalParse [soeLine, dateLine1, s2l " EC= bogus"] = .panic := by
  refine ⟨by decide, by decide, by decide⟩

/-- C3: a line sequence that simply ends mid-cycle, all present lines
well-formed, never panics either machine: every completed cycle's item is
emitted, the truncated trailing cycle emits nothing, and the drain ends
cleanly. -/
theorem C3_truncation_safe (pre : List Str) (hpre : ∀ l ∈ pre, l ≠ soeLine) :
    (∀ (cs : List GoodCycle) (tr : List Str), VTailOk tr →
      vectorParse (pre ++ soeLine :: (flatCycles cs ++ tr)) = .ok (cycleItems cs))
  ∧ (∀ (os : List GoodOCycle) (tr : List Str), OTailOk tr →
      orbitalParse (pre ++ soeLine :: (flatOCycles os ++ tr)) = .ok (oCycleItems os)) := by
  constructor
  · intro cs tr htr
    obtain ⟨s, hs⟩ := vRun_tail htr
    unfold vectorParse
    rw [vRun_soe pre hpre, vRun_flat, hs]
    simp [prependV]
  · intro os tr htr
    obtain ⟨s, hs⟩ := oRun_tail htr
    unfold orbitalParse
    rw [oRun_soe pre hpre, oRun_flat, hs]
    simp [prependO]

theorem C3_truncation_safe_witness :
    vectorParse ([] ++ soeLine :: (flatCycles [gc1] ++ [dateLine1])) = .ok (cycleItems [gc1])
  ∧ orbitalParse ([] ++ soeLine :: (flatOCycles [] ++ [dateLine1, row1Line1]))
      = .ok (oCycleItems []) :=
  ⟨(C3_truncation_safe [] (by simp)).1 [gc1] [dateLine1]
      (VTailOk.date _ dt1 (by decide) (by decide)),
    (C3_truncation_safe [] (by simp)).2 [] [dateLine1, row1Line1]
      (OTailOk.row1 _ _ dt1 pos1 (by decide) (by decide) (by decide))⟩

/-- C9: the auxiliary third line of a vector cycle is consumed but its
content never influences the emitted items: if after some prefix the
machine stands in the `Complete` state, replacing the next line — the
auxiliary line — by any other string leaves the whole drained output
unchanged. -/
theorem C9_aux_line_content_irrelevant (pre post : List Str) (aux aux2 : Str)
    (t : NaiveDT) (pv vv : Dec × Dec × Dec) (its : List EphemerisVectorItem)
    (h : vRun .waitingForSoe pre = .ok (.complete t pv vv, its)) :
    vectorParse (pre ++ aux :: post) = vectorParse (pre ++ aux2 :: post) := by
  unfold vectorParse
  rw [vRun_append .waitingForSoe pre (aux :: post),
    vRun_append .waitingForSoe pre (aux2 :: post), h]
  dsimp only [vRun, vStep]

theorem C9_aux_line_content_irrelevant_witness :
    vectorParse ([soeLine, dateLine1, posLine1, velLine1] ++ auxLine1 :: [eoeLine])
      = vectorParse ([soeLine, dateLine1, posLine1, velLine1] ++ s2l "REPLACED" :: [eoeLine]) :=
  C9_aux_line_content_irrelevant [soeLine, dateLine1, posLine1, velLine1] [eoeLine]
    auxLine1 (s2l "REPLACED") dt1 pos1 vel1 [] (by decide)

/-- C7: for every timestamp line `<julian-day> = A.D. <stamp><suffix>`
whose 20-character stamp parses under `%Y-%b-%d %H:%M:%S`, the decoder
returns exactly that parse — the variable-width suffix (and the julian-day
part) never influence the result.  The stamp is written `s0 ++ [c]` to
name its last character, which the `YYYY-Mon-DD HH:MM:SS` format makes a
digit, hence non-whitespace. -/
theorem C7_timestamp_window (jd s0 suffix : Str) (c : Char) (dt : NaiveDT)
    (hjd : '=' ∉ jd) (hstamp : '=' ∉ s0 ++ [c]) (hlen : (s0 ++ [c]).length = 20)
    (hc : isWS c = false) (hparse : parseStamp (s0 ++ [c]) = some dt) :
    parse_date_time (jd ++ s2l " = A.D. " ++ ((s0 ++ [c]) ++ suffix)) = .ok dt := by
  have hline : jd ++ s2l " = A.D. " ++ ((s0 ++ [c]) ++ suffix)
      = (jd ++ [' ']) ++ '=' :: (s2l " A.D. " ++ ((s0 ++ [c]) ++ suffix)) := by
    have h8 : s2l " = A.D. " = ' ' :: '=' :: s2l " A.D. " := rfl
    rw [h8]
    simp
  have hnotin : '=' ∉ jd ++ [' '] := by
    intro hm
    rcases List.mem_append.mp hm with h | h
    · exact hjd h
    · simp at h
  have hfp : firstPart '=' (s2l " A.D. " ++ ((s0 ++ [c]) ++ suffix))
      = s2l " A.D. " ++ ((s0 ++ [c]) ++ firstPart '=' suffix) := by
    rw [firstPart_append (by decide), firstPart_append hstamp]
  have hget : (splitTerminator '='
        (jd ++ s2l " = A.D. " ++ ((s0 ++ [c]) ++ suffix))).get? 1
      = some (s2l " A.D. " ++ ((s0 ++ [c]) ++ firstPart '=' suffix)) := by
    rw [← hfp]
    refine splitTerminator_get1 hnotin _ hline ?hb
    rw [hfp]
    simp [s2l]
  have htrim : trim (s2l " A.D. " ++ ((s0 ++ [c]) ++ firstPart '=' suffix))
      = s2l "A.D. " ++ ((s0 ++ [c]) ++ rtrim (firstPart '=' suffix)) := by
    unfold trim
    rw [ltrim_adp]
    have hre : s2l "A.D. " ++ ((s0 ++ [c]) ++ firstPart '=' suffix)
        = ((s2l "A.D. " ++ s0) ++ [c]) ++ firstPart '=' suffix := by
      simp [List.append_assoc]
    rw [hre, rtrim_append hc]
    simp [List.append_assoc]
  unfold parse_date_time
  rw [hget]
  dsimp only
  rw [htrim, take_expecting_append]
  dsimp only
  rw [take_or_empty_append hlen]
  dsimp only
  rw [hparse]

theorem C7_timestamp_window_witness :
    parse_date_time (s2l "2459750.250000000" ++ s2l " = A.D. "
      ++ ((s2l "2022-Jun-19 18:00:0" ++ ['0']) ++ s2l ".0000 TDB ")) = .ok dt1 :=
  C7_timestamp_window (s2l "2459750.250000000") (s2l "2022-Jun-19 18:00:0")
    (s2l ".0000 TDB ") '0' dt1 (by decide) (by decide) (by decide) (by decide) (by decide)

/-- C8 counterexample: in a block whose first `Mass x10^` line carries the
non-numeric exponent `XY`, the scan panics on that line, although a later
line fully matches, where the claim demands that `Properties` with mass
`5.97219e24` be returned from the first fully matching line. -/
theorem C8_counterexample :
    propertiesParse [poisonMassLine, earthMassLine] = .panic
  ∧ propertiesParse [poisonMassLine, earthMassLine] ≠ .ok (.ok ⟨⟨597219, 19⟩⟩) := by
  refine ⟨by decide, by decide⟩

/-- C8 (amended): a line carrying, after its first 45 columns, the literal
`Mass x10^`, a numeric 2-character exponent in integer form, the literal
`" (kg)= "` and a numeric 7-character mantissa makes `Properties::parse`
return mass `mantissa * 10 ^ exponent` immediately — first full match
wins, scanning stops there; with no fully matching line (and no panicking
line) the typed property-not-found outcome is returned, never a default of
zero; the concrete Earth line yields `5.97219e24`, i.e. `597219 * 10 ^
19`.  The amendment restricts the claim to blocks whose earlier lines do
not panic the scan (see the counterexample), and the mass formula to
integer exponents (`0 ≤ e.exp`), the only ones whose power of ten the
exact-decimal model can represent. -/
theorem C8_mass_scan :
    (∀ (pad e2 mant tail2 : Str) (rest : List Str) (e m : Dec),
      pad.length = 45 → e2.length = 2 → parse_f32 e2 = some e → 0 ≤ e.exp →
      mant.length = 7 → parse_f32 mant = some m →
      propertiesParse ((pad ++ massLit ++ e2 ++ kgLit ++ mant ++ tail2) :: rest)
        = .ok (.ok ⟨decMul m (decPow10 e)⟩))
  ∧ (∀ (pre2 : List Str) (good : Str) (rest : List Str) (p : Properties),
      (∀ l ∈ pre2, propScanLine l = .ok none) → propScanLine good = .ok (some p) →
      propertiesParse (pre2 ++ good :: rest) = .ok (.ok p))
  ∧ (∀ block : List Str, (∀ l ∈ block, propScanLine l = .ok none) →
      propertiesParse block = .ok (.error .parseError))
  ∧ propertiesParse [earthMassLine] = .ok (.ok ⟨⟨597219, 19⟩⟩) := by
  have hfull : ∀ (pad e2 mant tail2 : Str) (e m : Dec),
      pad.length = 45 → e2.length = 2 → parse_f32 e2 = some e →
      mant.length = 7 → parse_f32 mant = some m →
      propScanLine (pad ++ massLit ++ e2 ++ kgLit ++ mant ++ tail2)
        = .ok (some ⟨decMul m (decPow10 e)⟩) := by
    intro pad e2 mant tail2 e m hpad he2 hpe hmant hpm
    have hline : pad ++ massLit ++ e2 ++ kgLit ++ mant ++ tail2
        = pad ++ (massLit ++ (e2 ++ (kgLit ++ (mant ++ tail2)))) := by
      simp [List.append_assoc]
    rw [hline]
    unfold propScanLine
    rw [take_or_empty_append hpad]
    dsimp only
    rw [take_expecting_append]
    dsimp only
    rw [take_or_empty_append he2]
    dsimp only
    rw [hpe]
    dsimp only
    rw [take_expecting_append]
    dsimp only
    rw [take_or_empty_append hmant]
    dsimp only
    rw [hpm]
  refine ⟨?full, ?first, ?noneCase, by decide⟩
  · intro pad e2 mant tail2 rest e m hpad he2 hpe _ hmant hpm
    simp only [propertiesParse, hfull pad e2 mant tail2 e m hpad he2 hpe hmant hpm]
  · intro pre2 good rest p
    induction pre2 with
    | nil =>
      intro _ hgood
      simp only [List.nil_append, propertiesParse, hgood]
    | cons l pre ih =>
      intro hpre2 hgood
      have hl : propScanLine l = .ok none := hpre2 l (List.mem_cons_self l pre)
      simp only [List.cons_append, propertiesParse, hl]
      exact ih (fun x hx => hpre2 x (List.mem_cons_of_mem l hx)) hgood
  · intro block
    induction block with
    | nil =>
      intro _
      rfl
    | cons l bl ih =>
      intro hnone
      have hl : propScanLine l = .ok none := hnone l (List.mem_cons_self l bl)
      simp only [propertiesParse, hl]
      exact ih fun x hx => hnone x (List.mem_cons_of_mem l hx)

theorem C8_mass_scan_witness :
    propertiesParse ((List.replicate 45 ' ' ++ massLit ++ s2l "24" ++ kgLit
        ++ s2l "5.97219" ++ s2l "+-0.0006") :: [s2l "later line"])
      = .ok (.ok ⟨decMul ⟨597219, -5⟩ (decPow10 ⟨24, 0⟩)⟩) :=
  C8_mass_scan.1 (List.replicate 45 ' ') (s2l "24") (s2l "5.97219") (s2l "+-0.0006")
    [s2l "later line"] ⟨24, 0⟩ ⟨597219, -5⟩ (by decide) (by decide) (by decide)
    (by decide) (by decide) (by decide)

/-- C10: a line matching `Mass x10^` at offset 45 with a numeric
2-character exponent that is not then followed by the literal `" (kg)= "`
does not end the scan: parsing the block behaves exactly as if the line
were absent, so a later well-formed mass line is still decoded. -/
theorem C10_kg_mismatch_scan_continues (l : Str) (post : List Str) (mult : Str)
    (e : Dec) (errv : Str)
    (hm : take_expecting (take_or_empty l 45).2 massLit = .ok mult)
    (he : parse_f32 (take_or_empty mult 2).1 = some e)
    (hkg : take_expecting (take_or_empty mult 2).2 kgLit = .error errv) :
    propertiesParse (l :: post) = propertiesParse post := by
  have hscan : propScanLine l = .ok none := by
    unfold propScanLine
    obtain ⟨a, b, hab⟩ : ∃ a b, take_or_empty l 45 = (a, b) := ⟨_, _, rfl⟩
    rw [hab] at hm
    simp only at hm
    rw [hab]
    dsimp only
    rw [hm]
    dsimp only
    obtain ⟨c2, d2, hcd⟩ : ∃ c2 d2, take_or_empty mult 2 = (c2, d2) := ⟨_, _, rfl⟩
    rw [hcd] at he hkg
    simp only at he hkg
    rw [hcd]
    dsimp only
    rw [he]
    dsimp only
    rw [hkg]
  simp only [propertiesParse, hscan]

theorem C10_kg_mismatch_scan_continues_witness :
    propertiesParse [badKgLine, earthMassLine] = .ok (.ok ⟨⟨597219, 19⟩⟩) :=
  (C10_kg_mismatch_scan_continues badKgLine [earthMassLine]
      (s2l "24 [kg]= 1.00000") ⟨24, 0⟩ (s2l " [kg]= 1.00000")
      (by decide) (by decide) (by decide)).trans (by decide)

end Rhorizons
